import Mathlib

/-!
Verification of the RSVP reading core utilities (text processing and display
calculation functions): the ORP (Optimal Recognition Point) calculator, the
per-word delay model, the pause scheduler and the sliding-window frame
extractor.

Modelling conventions, shared by all definitions below:

* A JavaScript string argument that may be `null`/`undefined`/non-string is
  modelled as `Option (List Char)`: `none` stands for every non-string value
  and `some []` for the empty string.  The source guards
  `!word || typeof word !== 'string'` treat both as invalid (the empty string
  is falsy), so both take the same early-return branch.
* JavaScript numbers are modelled as `ℚ` (for rates and multipliers) or `ℤ`
  (for indices and sizes).  The one place the source can divide by zero
  (`60000 / wordsPerMinute` before any rate guard) is modelled with `JSNum`,
  which represents the IEEE-754 outcomes finite / +Infinity / -Infinity / NaN
  of a division of finite operands.
* The Unicode letter class `\p{L}` used by `getORPIndex`/`getActualORPIndex`
  is abstracted as an explicit predicate parameter `L : Char → Bool`; every
  theorem below holds for an arbitrary classifier, and concrete witnesses
  instantiate `L` with `Char.isAlpha` (the ASCII fragment of `\p{L}`).
* `Math.floor (Math.log2 n)` on a positive integer `n` is `Nat.log2 n`.
-/

namespace RSVP

/-- JavaScript number produced by an operation that may divide by zero: a
finite rational, positive or negative infinity, or NaN. -/
inductive JSNum where
  | fin (q : ℚ)
  | posInf
  | negInf
  | nan
deriving DecidableEq, Repr

/-- JavaScript division of finite operands: ordinary division when the
divisor is nonzero, `±Infinity` when a nonzero value is divided by zero, and
`NaN` for `0 / 0`. -/
def jsDiv (a b : ℚ) : JSNum :=
  if b ≠ 0 then .fin (a / b)
  else if 0 < a then .posInf
  else if a < 0 then .negInf
  else .nan

/-- Branch table of `getORPIndex` as a function of the Unicode-letter count
`len` (the source computes `word.replace(/[^\p{L}]/gu, '').length` and then
branches on it).  The source's `Math.floor(Math.log2(len - 1)) + 1` branch is
`Nat.log2 (len - 1) + 1`. -/
def orpIndexOfLen (len : ℕ) : ℕ :=
  if len ≤ 1 then 0
  else if len ≤ 3 then 0
  else if len ≤ 5 then 1
  else if len ≤ 9 then 2
  else if len ≤ 12 then 3
  else Nat.log2 (len - 1) + 1

/-- Model of `getORPIndex(word)`: `0` for invalid or empty input, otherwise
the branch table applied to the count of characters classified as letters by
`L`. -/
def getORPIndex (L : Char → Bool) : Option (List Char) → ℕ
  | none => 0
  | some w => if w = [] then 0 else orpIndexOfLen (w.countP L)

/-- Model of the scanning loop of `getActualORPIndex`: walk the characters
left to right keeping the current position `pos` and the running letter count
`lc`; at each letter, return the position if `lc` equals `target`, else
increment `lc`.  Returns `none` when the loop finishes without returning. -/
def orpScan (L : Char → Bool) (target : ℕ) :
    List Char → ℕ → ℕ → Option ℕ
  | [], _, _ => none
  | c :: rest, pos, lc =>
    if L c then
      if lc = target then some pos
      else orpScan L target rest (pos + 1) (lc + 1)
    else orpScan L target rest (pos + 1) lc

/-- Model of `getActualORPIndex(word)`: `0` for invalid or empty input;
otherwise scan for the letter whose running count equals `getORPIndex word`,
and fall back to `min orpIndex (length - 1)` when the loop completes. -/
def getActualORPIndex (L : Char → Bool) : Option (List Char) → ℕ
  | none => 0
  | some w =>
    if w = [] then 0
    else
      match orpScan L (getORPIndex L (some w)) w 0 0 with
      | some i => i
      | none => min (getORPIndex L (some w)) (w.length - 1)

/-- Result record of `splitWordForDisplay`. -/
structure WordDisplayParts where
  before : List Char
  orp : List Char
  after : List Char
deriving DecidableEq, Repr

/-- Model of `splitWordForDisplay(word)`: empty parts for invalid or empty
input, otherwise `word.slice(0, i)`, `word[i] || ''` and `word.slice(i + 1)`
at `i = getActualORPIndex word`.  The middle part `(w.drop i).take 1` is the
one-character list at index `i` when `i` is in bounds and `[]` otherwise,
exactly like the source's `word[i] || ''`. -/
def splitWordForDisplay (L : Char → Bool) : Option (List Char) → WordDisplayParts
  | none => ⟨[], [], []⟩
  | some w =>
    if w = [] then ⟨[], [], []⟩
    else
      ⟨w.take (getActualORPIndex L (some w)),
       (w.drop (getActualORPIndex L (some w))).take 1,
       w.drop (getActualORPIndex L (some w) + 1)⟩

/-- Test of the source regex `/[.!?;:]$/`: the last character is
sentence-ending punctuation. -/
def endsInSentencePunct (w : List Char) : Bool :=
  match w.getLast? with
  | some c => ['.', '!', '?', ';', ':'].contains c
  | none => false

/-- Test of the source regex `/[,]$/`: the last character is a comma. -/
def endsInComma (w : List Char) : Bool :=
  w.getLast? == some ','

/-- Model of `getWordDelay(word, wordsPerMinute, pauseOnPunctuation,
punctuationMultiplier, wordLengthWPMMultiplier)`.  The source returns
`60000 / wordsPerMinute` immediately on an invalid word (before any guard on
the rate, hence `jsDiv`), returns the fixed fallback `200` on a non-positive
rate, and otherwise scales the base delay by the long-word factor and then by
the punctuation factor.  In the valid branch `wordsPerMinute > 0`, so plain
rational division is exact there. -/
def getWordDelay : Option (List Char) → ℚ → Bool → ℚ → ℚ → JSNum
  | none, wordsPerMinute, _, _, _ => jsDiv 60000 wordsPerMinute
  | some w, wordsPerMinute, pauseOnPunctuation, punctuationMultiplier,
      wordLengthWPMMultiplier =>
    if w = [] then jsDiv 60000 wordsPerMinute
    else if wordsPerMinute ≤ 0 then .fin 200
    else
      let base : ℚ := 60000 / wordsPerMinute
      let base : ℚ :=
        if 0 < wordLengthWPMMultiplier ∧ 12 ≤ w.length then
          base * (1 + wordLengthWPMMultiplier / 100 * ((w.length : ℚ) - 12))
        else base
      if pauseOnPunctuation && endsInSentencePunct w then
        .fin (base * punctuationMultiplier)
      else if pauseOnPunctuation && endsInComma w then
        .fin (base * (3 / 2))
      else .fin base

/-- Model of `shouldPauseAtWord(wordIndex, pauseAfterWords)`.  The modulo is
only reached with both arguments positive, where JavaScript `%` and `Int.emod`
agree. -/
def shouldPauseAtWord (wordIndex pauseAfterWords : ℤ) : Bool :=
  if pauseAfterWords ≤ 0 then false
  else if wordIndex ≤ 0 then false
  else wordIndex % pauseAfterWords == 0

/-- Result record of `extractWordFrame`. -/
structure WordFrame where
  subset : List String
  centerOffset : ℤ
deriving DecidableEq, Repr

/-- Model of the source's `allWords[centerIdx] || ''`: the element at a
non-negative in-range index, and the empty string otherwise (`undefined`
coerced by `|| ''`; an empty-string element is left unchanged by `|| ''`). -/
def jsElem (l : List String) (i : ℤ) : String :=
  if 0 ≤ i then l.getD i.toNat "" else ""

/-- Normalization an index undergoes in `Array.prototype.slice`: a negative
index counts from the end (clamped below by 0), a non-negative one is clamped
above by the length. -/
def jsSliceIdx (len i : ℤ) : ℤ :=
  if i < 0 then max 0 (len + i) else min len i

/-- Model of `l.slice(s, e)` with JavaScript semantics: the elements from the
normalized start (inclusive) to the normalized end (exclusive), empty when the
start is not before the end. -/
def jsSlice (l : List String) (s e : ℤ) : List String :=
  (l.take (jsSliceIdx l.length e).toNat).drop (jsSliceIdx l.length s).toNat

/-- Model of `extractWordFrame(allWords, centerIdx, frameSize)`.  The guard of
the source is `frameSize <= 1 || centerIdx >= allWords.length`; a negative
`centerIdx` is not caught by it.  In the window branch `frameSize ≥ 2`, where
JavaScript `Math.floor(frameSize / 2)` and `Int` division agree.  The
intermediate constants of the source are inlined: `radius = frameSize / 2`,
`leftBound = max 0 (centerIdx - radius)` and
`rightBound = min length (centerIdx + radius + 1)`. -/
def extractWordFrame (allWords : List String) (centerIdx frameSize : ℤ) :
    WordFrame :=
  if frameSize ≤ 1 ∨ (allWords.length : ℤ) ≤ centerIdx then
    { subset := [jsElem allWords centerIdx], centerOffset := 0 }
  else
    { subset := jsSlice allWords (max 0 (centerIdx - frameSize / 2))
        (min (allWords.length : ℤ) (centerIdx + frameSize / 2 + 1))
      centerOffset := centerIdx - max 0 (centerIdx - frameSize / 2) }

/-- Policy table for the ORP index as stated by the specification: `len ≤ 3`
gives 0, `4 ≤ len ≤ 5` gives 1, `6 ≤ len ≤ 9` gives 2, `10 ≤ len ≤ 12`
gives 3, and `len > 12` gives `floor (log2 (len - 1)) + 1`. -/
def orpPolicyTable (len : ℕ) : ℕ :=
  if len ≤ 3 then 0
  else if len ≤ 5 then 1
  else if len ≤ 9 then 2
  else if len ≤ 12 then 3
  else Nat.log2 (len - 1) + 1

/-- Length modifier of the delay model as stated by the specification: the
factor `1 + (wordLengthWPMMultiplier / 100) * (length - 12)` when the
multiplier is positive and the raw length is at least 12, else `1`. -/
def lengthModifier (m : ℚ) (len : ℕ) : ℚ :=
  if 0 < m ∧ 12 ≤ len then 1 + m / 100 * ((len : ℚ) - 12) else 1

/-- Punctuation modifier of the delay model as stated by the specification:
only active when `pauseOnPunctuation` is true; sentence-ending punctuation
takes priority over the comma check; otherwise `1`. -/
def punctuationModifier (p : Bool) (pm : ℚ) (w : List Char) : ℚ :=
  if p && endsInSentencePunct w then pm
  else if p && endsInComma w then 3 / 2
  else 1

/-! Helper lemmas shared by the claim theorems. -/

/-- Splitting a list at any index into prefix, at-most-one-element middle and
suffix reassembles the list (also when the index is out of bounds). -/
theorem take_middle_drop (l : List Char) (i : ℕ) :
    l.take i ++ (l.drop i).take 1 ++ l.drop (i + 1) = l := by
  induction l generalizing i with
  | nil => simp
  | cons c t ih =>
    cases i with
    | zero => simp
    | succ j => simp only [List.take_succ_cons, List.drop_succ_cons, List.cons_append]; rw [ih j]

/-- Specification of a successful scan: the returned position is at or after
the starting position, in bounds, and holds a character classified as a
letter. -/
theorem orpScan_some_spec (L : Char → Bool) (target : ℕ) :
    ∀ (l : List Char) (pos lc i : ℕ), orpScan L target l pos lc = some i →
      pos ≤ i ∧ i - pos < l.length ∧
        ∃ c, l[i - pos]? = some c ∧ L c = true := by
  intro l
  induction l with
  | nil => intro pos lc i h; simp [orpScan] at h
  | cons c rest ih =>
    intro pos lc i h
    rw [orpScan] at h
    by_cases hL : L c
    · rw [if_pos hL] at h
      by_cases ht : lc = target
      · rw [if_pos ht] at h
        obtain rfl : pos = i := by simp at h; exact h
        refine ⟨le_refl _, by simp, c, ?_, hL⟩
        simp
      · rw [if_neg ht] at h
        obtain ⟨h1, h2, c', hc', hLc'⟩ := ih (pos + 1) (lc + 1) i h
        refine ⟨by omega, by simp; omega, c', ?_, hLc'⟩
        have hip : i - pos = (i - (pos + 1)) + 1 := by omega
        rw [hip]
        simpa using hc'
    · rw [if_neg hL] at h
      obtain ⟨h1, h2, c', hc', hLc'⟩ := ih (pos + 1) lc i h
      refine ⟨by omega, by simp; omega, c', ?_, hLc'⟩
      have hip : i - pos = (i - (pos + 1)) + 1 := by omega
      rw [hip]
      simpa using hc'

/-- The scan succeeds whenever the target lies between the running letter
count and the total letter count of the remaining characters. -/
theorem orpScan_isSome (L : Char → Bool) (target : ℕ) :
    ∀ (l : List Char) (pos lc : ℕ), lc ≤ target → target < lc + l.countP L →
      ∃ i, orpScan L target l pos lc = some i := by
  intro l
  induction l with
  | nil => intro pos lc h1 h2; rw [List.countP_nil] at h2; omega
  | cons c rest ih =>
    intro pos lc h1 h2
    rw [List.countP_cons] at h2
    rw [orpScan]
    by_cases hL : L c
    · rw [if_pos hL]
      by_cases ht : lc = target
      · exact ⟨pos, by rw [if_pos ht]⟩
      · rw [if_neg ht]
        rw [if_pos hL] at h2
        exact ih (pos + 1) (lc + 1) (by omega) (by omega)
    · rw [if_neg hL]
      rw [if_neg hL] at h2
      exact ih (pos + 1) lc h1 (by omega)

/-- The scan fails when the remaining letters cannot raise the running count
to the target. -/
theorem orpScan_eq_none (L : Char → Bool) (target : ℕ) :
    ∀ (l : List Char) (pos lc : ℕ), lc + l.countP L ≤ target →
      orpScan L target l pos lc = none := by
  intro l
  induction l with
  | nil => intro pos lc _; rfl
  | cons c rest ih =>
    intro pos lc h
    rw [List.countP_cons] at h
    rw [orpScan]
    by_cases hL : L c
    · rw [if_pos hL]
      rw [if_pos hL] at h
      have hne : lc ≠ target := by omega
      rw [if_neg hne]
      exact ih (pos + 1) (lc + 1) (by omega)
    · rw [if_neg hL]
      rw [if_neg hL] at h
      exact ih (pos + 1) lc (by omega)

/-- On a positive letter count the branch table stays strictly below the
count, so the scan for the target letter always succeeds. -/
theorem orpIndexOfLen_lt (n : ℕ) (hn : 0 < n) : orpIndexOfLen n < n := by
  by_cases h : n ≤ 12
  · interval_cases n <;> decide
  · have h13 : 13 ≤ n := by omega
    unfold orpIndexOfLen
    rw [if_neg (by omega), if_neg (by omega), if_neg (by omega),
      if_neg (by omega), if_neg (by omega)]
    have hlog : Nat.log2 (n - 1) < n - 1 := by
      rw [Nat.log2_eq_log_two]
      exact Nat.log_lt_self 2 (by omega)
    omega

/-- Value of the binary logarithm at 12, needed for the letter count 13. -/
theorem nat_log2_12 : Nat.log2 12 = 3 := by
  rw [Nat.log2_eq_log_two]
  exact Nat.log_eq_of_pow_le_of_lt_pow (by norm_num) (by norm_num)

/-- Value of the binary logarithm at 28, needed for the letter count 29. -/
theorem nat_log2_28 : Nat.log2 28 = 4 := by
  rw [Nat.log2_eq_log_two]
  exact Nat.log_eq_of_pow_le_of_lt_pow (by norm_num) (by norm_num)

/-- Policy table value in the logarithmic region. -/
theorem orpPolicyTable_of_gt (n : ℕ) (h : 12 < n) :
    orpPolicyTable n = Nat.log2 (n - 1) + 1 := by
  unfold orpPolicyTable
  rw [if_neg (by omega), if_neg (by omega), if_neg (by omega), if_neg (by omega)]

/-- The branch table of the source agrees with the specification's policy
table at every letter count (the source's redundant extra case for
`len ≤ 1` does not change the value). -/
theorem orpIndexOfLen_eq_policy (n : ℕ) : orpIndexOfLen n = orpPolicyTable n := by
  unfold orpIndexOfLen orpPolicyTable
  split_ifs <;> first | rfl | omega

/-- One-step monotonicity of the policy table. -/
theorem orpPolicyTable_le_succ (n : ℕ) : orpPolicyTable n ≤ orpPolicyTable (n + 1) := by
  by_cases h : n ≤ 11
  · interval_cases n <;> decide
  · by_cases h12 : n = 12
    · subst h12
      rw [orpPolicyTable_of_gt 13 (by omega)]
      simp [nat_log2_12, orpPolicyTable]
    · rw [orpPolicyTable_of_gt n (by omega), orpPolicyTable_of_gt (n + 1) (by omega)]
      have : Nat.log2 (n - 1) ≤ Nat.log2 (n + 1 - 1) := by
        rw [Nat.log2_eq_log_two, Nat.log2_eq_log_two]
        exact Nat.log_mono_right (by omega)
      omega

/-- Monotonicity of the policy table. -/
theorem orpPolicyTable_mono : Monotone orpPolicyTable :=
  monotone_nat_of_le_succ orpPolicyTable_le_succ

/-- On a non-empty word the actual ORP index is a strictly in-bounds
character position. -/
theorem getActualORPIndex_lt (L : Char → Bool) (w : List Char) (hw : w ≠ []) :
    getActualORPIndex L (some w) < w.length := by
  have hlen : 0 < w.length := List.length_pos.mpr hw
  simp only [getActualORPIndex, if_neg hw]
  cases hscan : orpScan L (getORPIndex L (some w)) w 0 0 with
  | none => simp; omega
  | some i =>
    have := (orpScan_some_spec L (getORPIndex L (some w)) w 0 0 i hscan).2.1
    simpa using this

/-- In the valid branch (non-empty word, positive rate) the delay is the base
duration scaled by the length modifier and then by the punctuation
modifier. -/
theorem getWordDelay_valid (w : List Char) (wpm : ℚ) (p : Bool) (pm m : ℚ)
    (hw : w ≠ []) (hwpm : 0 < wpm) :
    getWordDelay (some w) wpm p pm m =
      .fin (60000 / wpm * lengthModifier m w.length * punctuationModifier p pm w) := by
  simp only [getWordDelay]
  unfold lengthModifier punctuationModifier
  rw [if_neg hw, if_neg (not_le.mpr hwpm)]
  by_cases hm : 0 < m ∧ 12 ≤ w.length <;>
    by_cases hs : (p && endsInSentencePunct w) = true <;>
      by_cases hc : (p && endsInComma w) = true <;>
        simp only [hm, hs, hc, if_true, if_false, if_pos, if_neg,
          not_false_iff, Bool.not_eq_true] <;>
          simp [hm, hs, hc]

/-- The length modifier is strictly positive for a non-negative
multiplier. -/
theorem lengthModifier_pos (m : ℚ) (len : ℕ) (hm : 0 ≤ m) :
    0 < lengthModifier m len := by
  unfold lengthModifier
  split
  · rename_i h
    have h12 : (12 : ℚ) ≤ (len : ℚ) := by exact_mod_cast h.2
    nlinarith [h.1]
  · norm_num

/-- The punctuation modifier is strictly positive for a positive
multiplier. -/
theorem punctuationModifier_pos (p : Bool) (pm : ℚ) (w : List Char)
    (hpm : 0 < pm) : 0 < punctuationModifier p pm w := by
  unfold punctuationModifier
  split
  · exact hpm
  · split <;> norm_num

/-! Claim theorems. -/

/-- Claim C1, counterexample: the source checks the word before the rate, so
with an invalid word and a zero rate it divides `60000` by zero and returns
Infinity rather than the 200 ms fallback the claim assigns to that case, and
with a valid word and a zero rate it returns 200 rather than
`60000 / wordsPerMinute`; the returned duration is not always finite. -/
theorem getWordDelay_guard_cex :
    getWordDelay none 0 true 2 0 = JSNum.posInf ∧
    getWordDelay none 0 true 2 0 ≠ JSNum.fin 200 ∧
    getWordDelay (some ['h', 'i']) 0 true 2 0 = JSNum.fin 200 ∧
    getWordDelay (some ['h', 'i']) 0 true 2 0 ≠ jsDiv 60000 0 := by
  refine ⟨by decide, by decide, by decide, by decide⟩

/-- Claim C1, amended: for every call with a non-positive `wordsPerMinute`,
if the word argument is invalid (non-string or empty) the result is
`60000 / wordsPerMinute` under JavaScript division — the finite value
`60000 / wordsPerMinute` for a negative rate but Infinity for a zero rate,
a division by zero — and if the word is a valid non-empty string the result
is the fixed fallback of 200 ms. -/
theorem getWordDelay_guard (wpm : ℚ) (p : Bool) (pm m : ℚ) (hwpm : wpm ≤ 0) :
    getWordDelay none wpm p pm m = jsDiv 60000 wpm ∧
    getWordDelay (some []) wpm p pm m = jsDiv 60000 wpm ∧
    (∀ w : List Char, w ≠ [] → getWordDelay (some w) wpm p pm m = JSNum.fin 200) ∧
    (wpm = 0 → getWordDelay none wpm p pm m = JSNum.posInf) ∧
    (wpm < 0 → getWordDelay none wpm p pm m = JSNum.fin (60000 / wpm)) := by
  refine ⟨rfl, rfl, ?_, ?_, ?_⟩
  · intro w hw
    simp only [getWordDelay]
    rw [if_neg hw, if_pos hwpm]
  · intro h0
    subst h0
    simp [getWordDelay, jsDiv]
  · intro hneg
    simp only [getWordDelay]
    unfold jsDiv
    rw [if_pos (ne_of_lt hneg)]

/-- Witness for the amended claim C1 at the rate `-5`. -/
theorem getWordDelay_guard_witness :
    getWordDelay (some ['h', 'i']) (-5) true 2 0 = JSNum.fin 200 :=
  (getWordDelay_guard (-5) true 2 0 (by norm_num)).2.2.1 ['h', 'i'] (by decide)

/-- Claim C2, counterexample: `centerIdx = -1` is out of range of the array,
but with `frameSize = 3` the guard `centerIdx >= allWords.length` does not
catch it, and the returned frame has `centerOffset = -1`, not the
single-element frame with `centerOffset = 0` the claim requires for every
out-of-range index. -/
theorem extractWordFrame_branch_cex :
    extractWordFrame ["a", "b", "c"] (-1) 3 = ⟨["a"], -1⟩ ∧
    (extractWordFrame ["a", "b", "c"] (-1) 3).centerOffset ≠ 0 := by
  refine ⟨by decide, by decide⟩

/-- Claim C2, amended: if `frameSize ≤ 1` or `centerIdx ≥ length` the result
is the single-element (or empty-string placeholder) frame with
`centerOffset = 0`; when `frameSize > 1` and `0 ≤ centerIdx < length` the
result is the slice from `max 0 (centerIdx - floor (frameSize / 2))`
(inclusive) to `min length (centerIdx + floor (frameSize / 2) + 1)`
(exclusive) with `centerOffset = centerIdx - leftBound`; and
`extractWordFrame ["a","b","c","d","e"] 0 3 = {subset := ["a","b"],
centerOffset := 0}`.  (A negative `centerIdx` with `frameSize > 1` instead
falls through to the window computation, see the counterexample.) -/
theorem extractWordFrame_branches :
    (∀ (tokens : List String) (c fs : ℤ),
        fs ≤ 1 ∨ (tokens.length : ℤ) ≤ c →
          extractWordFrame tokens c fs = ⟨[jsElem tokens c], 0⟩) ∧
    (∀ (tokens : List String) (c fs : ℤ),
        1 < fs → 0 ≤ c → c < (tokens.length : ℤ) →
          extractWordFrame tokens c fs =
            ⟨(tokens.take (min (tokens.length : ℤ) (c + fs / 2 + 1)).toNat).drop
                (max 0 (c - fs / 2)).toNat,
              c - max 0 (c - fs / 2)⟩) ∧
    extractWordFrame ["a", "b", "c", "d", "e"] 0 3 = ⟨["a", "b"], 0⟩ := by
  refine ⟨?_, ?_, by decide⟩
  · intro tokens c fs h
    unfold extractWordFrame
    rw [if_pos h]
  · intro tokens c fs h1 h0 h3
    have hlen : (0 : ℤ) ≤ (tokens.length : ℤ) := Int.ofNat_nonneg _
    have hr : 1 ≤ fs / 2 := by omega
    unfold extractWordFrame
    rw [if_neg (by rw [not_or]; exact ⟨not_le.mpr h1, not_le.mpr h3⟩)]
    unfold jsSlice
    have hs' : jsSliceIdx (tokens.length : ℤ) (max 0 (c - fs / 2)) =
        max 0 (c - fs / 2) := by
      unfold jsSliceIdx
      rw [if_neg (by omega)]
      omega
    have he' : jsSliceIdx (tokens.length : ℤ)
        (min (tokens.length : ℤ) (c + fs / 2 + 1)) =
        min (tokens.length : ℤ) (c + fs / 2 + 1) := by
      unfold jsSliceIdx
      rw [if_neg (by omega)]
      omega
    rw [hs', he']

/-- Witness for the amended claim C2 in the interior of the array. -/
theorem extractWordFrame_branches_witness :
    extractWordFrame ["a", "b", "c", "d", "e"] 2 3 =
      ⟨(["a", "b", "c", "d", "e"].take
          (min ((["a", "b", "c", "d", "e"] : List String).length : ℤ)
            (2 + 3 / 2 + 1)).toNat).drop (max (0 : ℤ) (2 - 3 / 2)).toNat,
        2 - max (0 : ℤ) (2 - 3 / 2)⟩ :=
  extractWordFrame_branches.2.1 ["a", "b", "c", "d", "e"] 2 3 (by norm_num)
    (by norm_num) (by decide)

/-- Claim C3, counterexample: at `centerIdx = -5` the frame has a non-empty
subset but `centerOffset = -5`, violating `0 ≤ centerOffset <
subset.length`. -/
theorem wordFrame_invariant_cex :
    (extractWordFrame ["a", "b", "c", "d", "e"] (-5) 3).subset ≠ [] ∧
    (extractWordFrame ["a", "b", "c", "d", "e"] (-5) 3).centerOffset < 0 := by
  refine ⟨by decide, by decide⟩

/-- Claim C3, amended: for every token array, every `centerIdx ≥ 0` and every
`frameSize`, the returned frame satisfies `0 ≤ centerOffset < subset.length`
whenever `subset` is non-empty.  (For a negative `centerIdx` the invariant
fails, see the counterexample.) -/
theorem wordFrame_invariant (tokens : List String) (c fs : ℤ) (hc : 0 ≤ c)
    (_hne : (extractWordFrame tokens c fs).subset ≠ []) :
    0 ≤ (extractWordFrame tokens c fs).centerOffset ∧
    (extractWordFrame tokens c fs).centerOffset <
      ((extractWordFrame tokens c fs).subset.length : ℤ) := by
  unfold extractWordFrame
  by_cases hg : fs ≤ 1 ∨ (tokens.length : ℤ) ≤ c
  · rw [if_pos hg]
    exact ⟨le_refl 0, by simp⟩
  · rw [not_or] at hg
    have h1 : 1 < fs := by omega
    have h3 : c < (tokens.length : ℤ) := by omega
    have hlen : (0 : ℤ) ≤ (tokens.length : ℤ) := Int.ofNat_nonneg _
    have hr : 1 ≤ fs / 2 := by omega
    rw [if_neg (by rw [not_or]; exact ⟨hg.1, hg.2⟩)]
    unfold jsSlice
    have hs' : jsSliceIdx (tokens.length : ℤ) (max 0 (c - fs / 2)) =
        max 0 (c - fs / 2) := by
      unfold jsSliceIdx
      rw [if_neg (by omega)]
      omega
    have he' : jsSliceIdx (tokens.length : ℤ)
        (min (tokens.length : ℤ) (c + fs / 2 + 1)) =
        min (tokens.length : ℤ) (c + fs / 2 + 1) := by
      unfold jsSliceIdx
      rw [if_neg (by omega)]
      omega
    rw [hs', he']
    simp only [List.length_drop, List.length_take]
    constructor
    · omega
    · omega

/-- Witness for the amended claim C3 at an interior cursor. -/
theorem wordFrame_invariant_witness :
    0 ≤ (extractWordFrame ["a", "b", "c"] 1 3).centerOffset ∧
    (extractWordFrame ["a", "b", "c"] 1 3).centerOffset <
      (((extractWordFrame ["a", "b", "c"] 1 3).subset.length : ℤ)) :=
  wordFrame_invariant ["a", "b", "c"] 1 3 (by norm_num) (by decide)

/-- Claim C4: as a function of the Unicode-letter count, `getORPIndex`
matches the policy table exactly (`len ≤ 3 → 0`; `4 ≤ len ≤ 5 → 1`;
`6 ≤ len ≤ 9 → 2`; `10 ≤ len ≤ 12 → 3`; `len > 12 → floor (log2 (len - 1))
+ 1`), the table is monotonically non-decreasing in the letter count, and the
boundary counts give `3 → 0`, `4 → 1`, `5 → 1`, `9 → 2`, `10 → 3`, `12 → 3`,
`13 → 4`, `29 → 5`. -/
theorem getORPIndex_policy :
    (∀ (L : Char → Bool) (w : List Char),
        getORPIndex L (some w) = orpPolicyTable (w.countP L)) ∧
    (∀ a b : ℕ, a ≤ b → orpPolicyTable a ≤ orpPolicyTable b) ∧
    orpPolicyTable 3 = 0 ∧ orpPolicyTable 4 = 1 ∧ orpPolicyTable 5 = 1 ∧
    orpPolicyTable 9 = 2 ∧ orpPolicyTable 10 = 3 ∧ orpPolicyTable 12 = 3 ∧
    orpPolicyTable 13 = 4 ∧ orpPolicyTable 29 = 5 := by
  refine ⟨?_, fun a b h => orpPolicyTable_mono h, by decide, by decide,
    by decide, by decide, by decide, by decide, ?_, ?_⟩
  · intro L w
    by_cases hw : w = []
    · subst hw
      simp [getORPIndex, List.countP_nil, orpPolicyTable]
    · simp only [getORPIndex, if_neg hw]
      exact orpIndexOfLen_eq_policy _
  · rw [orpPolicyTable_of_gt 13 (by norm_num)]
    norm_num [nat_log2_12]
  · rw [orpPolicyTable_of_gt 29 (by norm_num)]
    norm_num [nat_log2_28]

/-- Witness for claim C4: the monotonicity conjunct applied across the
logarithmic boundary. -/
theorem getORPIndex_policy_witness :
    orpPolicyTable 4 ≤ orpPolicyTable 20 :=
  getORPIndex_policy.2.1 4 20 (by norm_num)

/-- Claim C5: for every non-empty word, `splitWordForDisplay` returns parts
with `before ++ orp ++ after = word` and `orp` the single character at the
actual ORP index; for invalid (`none`) or empty input all three fields are
empty. -/
theorem splitWordForDisplay_spec :
    (∀ (L : Char → Bool) (w : List Char), w ≠ [] →
        (splitWordForDisplay L (some w)).before ++
            (splitWordForDisplay L (some w)).orp ++
            (splitWordForDisplay L (some w)).after = w ∧
          ∃ c, w[getActualORPIndex L (some w)]? = some c ∧
            (splitWordForDisplay L (some w)).orp = [c]) ∧
    (∀ L : Char → Bool, splitWordForDisplay L none = ⟨[], [], []⟩ ∧
        splitWordForDisplay L (some []) = ⟨[], [], []⟩) := by
  constructor
  · intro L w hw
    have hlt := getActualORPIndex_lt L w hw
    constructor
    · simp only [splitWordForDisplay, if_neg hw]
      exact take_middle_drop w _
    · refine ⟨w.get ⟨getActualORPIndex L (some w), hlt⟩, ?_, ?_⟩
      · rw [List.getElem?_eq_getElem hlt]
        simp
      · simp only [splitWordForDisplay, if_neg hw]
        rw [List.drop_eq_getElem_cons hlt]
        rfl
  · intro L
    exact ⟨rfl, rfl⟩

/-- Witness for claim C5 on a concrete four-letter word. -/
theorem splitWordForDisplay_spec_witness :
    (splitWordForDisplay Char.isAlpha (some ['r', 'e', 'a', 'd'])).before ++
        (splitWordForDisplay Char.isAlpha (some ['r', 'e', 'a', 'd'])).orp ++
        (splitWordForDisplay Char.isAlpha (some ['r', 'e', 'a', 'd'])).after =
        ['r', 'e', 'a', 'd'] ∧
      ∃ c, ['r', 'e', 'a', 'd'][getActualORPIndex Char.isAlpha
          (some ['r', 'e', 'a', 'd'])]? = some c ∧
        (splitWordForDisplay Char.isAlpha (some ['r', 'e', 'a', 'd'])).orp = [c] :=
  splitWordForDisplay_spec.1 Char.isAlpha ['r', 'e', 'a', 'd'] (by decide)

/-- Claim C6: on every non-empty word the actual ORP index is in bounds —
at most `length - 1`, hence strictly below the length, and being a natural
number it is never negative; when the word has no more letters than the
target index (the loop completes without returning) the result is exactly
`min orpIndex (length - 1)`. -/
theorem getActualORPIndex_bounds (L : Char → Bool) (w : List Char)
    (hw : w ≠ []) :
    getActualORPIndex L (some w) ≤ w.length - 1 ∧
    getActualORPIndex L (some w) < w.length ∧
    (w.countP L ≤ getORPIndex L (some w) →
      getActualORPIndex L (some w) =
        min (getORPIndex L (some w)) (w.length - 1)) := by
  have hlt := getActualORPIndex_lt L w hw
  have hlen : 0 < w.length := List.length_pos.mpr hw
  refine ⟨by omega, hlt, ?_⟩
  intro hle
  have hnone := orpScan_eq_none L (getORPIndex L (some w)) w 0 0 (by omega)
  simp only [getActualORPIndex, if_neg hw, hnone]

/-- Witness for claim C6 on a word with no letters, where the clamping
branch is exercised. -/
theorem getActualORPIndex_bounds_witness :
    getActualORPIndex Char.isAlpha (some ['!', '?']) =
      min (getORPIndex Char.isAlpha (some ['!', '?'])) (['!', '?'].length - 1) :=
  (getActualORPIndex_bounds Char.isAlpha ['!', '?'] (by decide)).2.2 (by decide)

/-- Claim C7: for every valid non-empty word and positive rate, the delay is
`60000 / wordsPerMinute` scaled first by the length modifier and then by the
punctuation modifier, whose sentence-end and comma checks are mutually
exclusive in that order; in particular the delay for the word `end.` at 300
wpm with `pauseOnPunctuation` and multiplier 2 is 400 ms, and for `end,` it
is 300 ms. -/
theorem getWordDelay_model :
    (∀ (w : List Char) (wpm : ℚ) (p : Bool) (pm m : ℚ), w ≠ [] → 0 < wpm →
        getWordDelay (some w) wpm p pm m =
          JSNum.fin (60000 / wpm * lengthModifier m w.length *
            punctuationModifier p pm w)) ∧
    getWordDelay (some ['e', 'n', 'd', '.']) 300 true 2 0 = JSNum.fin 400 ∧
    getWordDelay (some ['e', 'n', 'd', ',']) 300 true 2 0 = JSNum.fin 300 := by
  refine ⟨fun w wpm p pm m hw hwpm => getWordDelay_valid w wpm p pm m hw hwpm,
    ?_, ?_⟩
  · rw [getWordDelay_valid _ 300 true 2 0 (by decide) (by norm_num)]
    have hs : endsInSentencePunct ['e', 'n', 'd', '.'] = true := rfl
    norm_num [lengthModifier, punctuationModifier, hs]
  · rw [getWordDelay_valid _ 300 true 2 0 (by decide) (by norm_num)]
    have hs : endsInSentencePunct ['e', 'n', 'd', ','] = false := rfl
    have hc : endsInComma ['e', 'n', 'd', ','] = true := rfl
    norm_num [lengthModifier, punctuationModifier, hs, hc]

/-- Witness for claim C7 on a punctuated short word. -/
theorem getWordDelay_model_witness :
    getWordDelay (some ['h', 'i', '!']) 250 true 3 1 =
      JSNum.fin (60000 / 250 * lengthModifier 1 (['h', 'i', '!'].length) *
        punctuationModifier true 3 ['h', 'i', '!']) :=
  getWordDelay_model.1 ['h', 'i', '!'] 250 true 3 1 (by decide) (by norm_num)

/-- Claim C8: `shouldPauseAtWord` returns false when `pauseAfterWords ≤ 0` or
`wordIndex ≤ 0` and otherwise returns true exactly when `wordIndex` is a
multiple of `pauseAfterWords`; in particular it is true at indices 5, 10, 15
and false at 0, 1, 4, 6 for `pauseAfterWords = 5`. -/
theorem shouldPauseAtWord_spec :
    (∀ wi paw : ℤ, shouldPauseAtWord wi paw = true ↔
        0 < paw ∧ 0 < wi ∧ wi % paw = 0) ∧
    shouldPauseAtWord 5 5 = true ∧ shouldPauseAtWord 10 5 = true ∧
    shouldPauseAtWord 15 5 = true ∧ shouldPauseAtWord 0 5 = false ∧
    shouldPauseAtWord 1 5 = false ∧ shouldPauseAtWord 4 5 = false ∧
    shouldPauseAtWord 6 5 = false := by
  refine ⟨?_, by decide, by decide, by decide, by decide, by decide,
    by decide, by decide⟩
  intro wi paw
  unfold shouldPauseAtWord
  split_ifs with h1 h2 <;> simp only [Bool.false_eq_true, false_iff,
    beq_iff_eq, not_and] <;> omega

/-- Claim C9: on every word containing at least one letter, the character at
the actual ORP index is itself a letter, because the target letter index is
always strictly smaller than the word's letter count. -/
theorem getActualORPIndex_letter (L : Char → Bool) (w : List Char)
    (hcount : 0 < w.countP L) :
    getORPIndex L (some w) < w.countP L ∧
    ∃ c, w[getActualORPIndex L (some w)]? = some c ∧ L c = true := by
  have hw : w ≠ [] := by
    intro h
    subst h
    rw [List.countP_nil] at hcount
    omega
  have htarget : getORPIndex L (some w) < w.countP L := by
    simp only [getORPIndex, if_neg hw]
    exact orpIndexOfLen_lt _ hcount
  refine ⟨htarget, ?_⟩
  obtain ⟨i, hscan⟩ :=
    orpScan_isSome L (getORPIndex L (some w)) w 0 0 (Nat.zero_le _) (by omega)
  obtain ⟨hpos, hlen, c, hc, hLc⟩ :=
    orpScan_some_spec L (getORPIndex L (some w)) w 0 0 i hscan
  rw [Nat.sub_zero] at hc
  simp only [getActualORPIndex, if_neg hw, hscan]
  exact ⟨c, hc, hLc⟩

/-- Witness for claim C9 on a word with leading punctuation. -/
theorem getActualORPIndex_letter_witness :
    getORPIndex Char.isAlpha (some ['.', 'x']) <
      ['.', 'x'].countP Char.isAlpha ∧
    ∃ c, ['.', 'x'][getActualORPIndex Char.isAlpha (some ['.', 'x'])]? =
        some c ∧ Char.isAlpha c = true :=
  getActualORPIndex_letter Char.isAlpha ['.', 'x'] (by decide)

/-- Claim C10: with the word, punctuation flag, positive punctuation
multiplier and non-negative length multiplier held fixed, the delay is
strictly decreasing in the rate over positive rates: a faster speed setting
never yields a longer (or equal) per-word delay. -/
theorem getWordDelay_strictAnti (w : List Char) (p : Bool) (pm m wpm1 wpm2 : ℚ)
    (hw : w ≠ []) (hpm : 0 < pm) (hm : 0 ≤ m) (h1 : 0 < wpm1)
    (h12 : wpm1 < wpm2) :
    ∃ d1 d2 : ℚ, getWordDelay (some w) wpm1 p pm m = JSNum.fin d1 ∧
      getWordDelay (some w) wpm2 p pm m = JSNum.fin d2 ∧ d2 < d1 := by
  have h2 : 0 < wpm2 := h1.trans h12
  refine ⟨_, _, getWordDelay_valid w wpm1 p pm m hw h1,
    getWordDelay_valid w wpm2 p pm m hw h2, ?_⟩
  have hL := lengthModifier_pos m w.length hm
  have hP := punctuationModifier_pos p pm w hpm
  have hdiv : 60000 / wpm2 < 60000 / wpm1 :=
    div_lt_div_of_pos_left (by norm_num) h1 h12
  exact mul_lt_mul_of_pos_right (mul_lt_mul_of_pos_right hdiv hL) hP

/-- Witness for claim C10: doubling the rate from 100 to 200 wpm strictly
shrinks the delay. -/
theorem getWordDelay_strictAnti_witness :
    ∃ d1 d2 : ℚ, getWordDelay (some ['h', 'i']) 100 true 2 0 = JSNum.fin d1 ∧
      getWordDelay (some ['h', 'i']) 200 true 2 0 = JSNum.fin d2 ∧ d2 < d1 :=
  getWordDelay_strictAnti ['h', 'i'] true 2 0 100 200 (by decide) (by norm_num)
    (by norm_num) (by norm_num) (by norm_num)

end RSVP
